import Mathlib

/-!
Verification of the MXW01 cat-printer core: protocol codec, dithering
engine and print-session choreography, embedded shallowly from the Rust
sources (`src/protocol.rs`, `src/dithering.rs`, `src/printer.rs`).
Bytes are modelled as `Nat` values below 256; byte vectors as `List Nat`;
fallible functions return `Except String`.
-/

namespace CatPrinter

/-- One shift-and-reduce iteration of the CRC-8 inner loop
(`protocol.rs::crc8`, body of `for _ in 0..8`): the u8 left shift wraps,
modelled by `% 256`. -/
def crc8_step (crc : Nat) : Nat :=
  if crc &&& 0x80 ≠ 0 then ((crc <<< 1) % 256) ^^^ 0x07 else (crc <<< 1) % 256

/-- `protocol.rs::crc8`: polynomial 0x07, initial value 0x00, eight
MSB-first shift iterations per input byte, no final XOR. -/
def crc8 (data : List Nat) : Nat :=
  data.foldl (fun crc b => (List.range 8).foldl (fun c _ => crc8_step c) (crc ^^^ b)) 0x00

/-- `protocol.rs::build_control_packet`: preamble, command byte, reserved
zero, little-endian u16 payload length (the Rust `as u16` cast is `% 65536`),
payload, `crc8` of the payload, trailer 0xFF. -/
def build_control_packet (command_id : Nat) (payload : List Nat) : List Nat :=
  let len := payload.length % 65536
  [0x22, 0x21, command_id, 0x00, len &&& 0xFF, (len >>> 8) % 256]
    ++ payload ++ [crc8 payload, 0xFF]

/-- `protocol.rs::Notification`. -/
structure Notification where
  command_id : Nat
  unknown : Nat
  payload : List Nat
  crc : Option Nat
deriving DecidableEq, Repr

/-- `protocol.rs::parse_notification`. -/
def parse_notification (data : List Nat) : Except String Notification :=
  if data.length < 7 then .error "packet too short"
  else if data.getD 0 0 ≠ 0x22 ∨ data.getD 1 0 ≠ 0x21 then .error "bad preamble"
  else
    let cmd := data.getD 2 0
    let unknown := data.getD 3 0
    let len_lo := data.getD 4 0
    let len_hi := data.getD 5 0
    let payload_len := (len_hi <<< 8) ||| len_lo
    if data.length < 6 + payload_len then
      .error "not enough bytes for claimed payload length"
    else
      .ok { command_id := cmd, unknown := unknown,
            payload := (data.drop 6).take payload_len,
            crc := data.get? (6 + payload_len) }

/-- The little-endian payload length that `parse_notification` reads from
bytes 4 and 5. -/
def notified_len (data : List Nat) : Nat :=
  (data.getD 5 0 <<< 8) ||| data.getD 4 0

/-- The packet layout of `build_control_packet`, with the two length bytes
written as `% 256` and `/ 256 % 256` of the payload length. -/
theorem build_control_packet_eq (command_id : Nat) (payload : List Nat) :
    build_control_packet command_id payload =
      [0x22, 0x21, command_id, 0x00,
        payload.length % 256, payload.length / 256 % 256]
        ++ payload ++ [crc8 payload, 0xFF] := by
  have h1 : payload.length % 65536 &&& 0xFF = payload.length % 256 := by
    have h := Nat.and_pow_two_sub_one_eq_mod (payload.length % 65536) 8
    norm_num at h
    rw [h]
  have h2 : ((payload.length % 65536) >>> 8) % 256 = payload.length / 256 % 256 := by
    rw [Nat.shiftRight_eq_div_pow, show (2 : Nat) ^ 8 = 256 from by norm_num,
      show (65536 : Nat) = 256 * 256 from by norm_num, Nat.mod_mul_right_div_self]
    omega
  simp only [build_control_packet]
  rw [h1, h2]

/-- C1: for every command id and payload, `build_control_packet` returns
exactly `0x22, 0x21, command_id, 0x00`, the two bytes of the payload length
in little-endian order, the payload verbatim, the CRC-8 checksum (polynomial
0x07, initial value 0x00, MSB-first, no final XOR, as implemented by `crc8`)
of the payload alone, and the trailer `0xFF`. -/
theorem C1_build_control_packet_layout (command_id : Nat) (payload : List Nat) :
    build_control_packet command_id payload =
      [0x22, 0x21, command_id, 0x00,
        payload.length % 256, payload.length / 256 % 256]
        ++ payload ++ [crc8 payload, 0xFF] :=
  build_control_packet_eq command_id payload

/-- C3: `parse_notification` errors exactly when the input is shorter than 7
bytes, or its preamble is not `0x22 0x21`, or it is shorter than `6 + L`
where `L` is the little-endian length at bytes 4-5; on success the byte at
index `6 + L` (when present) is captured as `crc` — success never depends on
its value, since the error condition mentions only the length and bytes
0, 1, 4, 5. -/
theorem C3_parse_notification_spec (data : List Nat) :
    ((∃ e, parse_notification data = .error e) ↔
      (data.length < 7 ∨ data.getD 0 0 ≠ 0x22 ∨ data.getD 1 0 ≠ 0x21 ∨
        data.length < 6 + notified_len data)) ∧
    (∀ n, parse_notification data = .ok n → n.crc = data.get? (6 + notified_len data)) := by
  simp only [parse_notification, notified_len]
  split_ifs with h1 h2 h3
  · exact ⟨⟨fun _ => Or.inl h1, fun _ => ⟨_, rfl⟩⟩, fun n hn => nomatch hn⟩
  · refine ⟨⟨fun _ => ?_, fun _ => ⟨_, rfl⟩⟩, fun n hn => nomatch hn⟩
    rcases h2 with h2 | h2
    · exact Or.inr (Or.inl h2)
    · exact Or.inr (Or.inr (Or.inl h2))
  · exact ⟨⟨fun _ => Or.inr (Or.inr (Or.inr h3)), fun _ => ⟨_, rfl⟩⟩,
      fun n hn => nomatch hn⟩
  · push_neg at h2
    refine ⟨⟨fun he => ?_, fun hc => ?_⟩, fun n hn => ?_⟩
    · obtain ⟨e, he⟩ := he
      exact nomatch he
    · rcases hc with hc | hc | hc | hc
      · exact absurd hc h1
      · exact (hc h2.1).elim
      · exact (hc h2.2).elim
      · exact absurd hc h3
    · simp only [Except.ok.injEq] at hn
      rw [← hn]

/-- A witness for the success branch of the `parse_notification`
specification, at a concrete 8-byte packet with payload length 1. -/
theorem C3_parse_notification_spec_witness :
    ({ command_id := 0xA9, unknown := 0x00, payload := [0x42], crc := some 0x99 } :
        Notification).crc =
      [0x22, 0x21, 0xA9, 0x00, 0x01, 0x00, 0x42, 0x99].get?
        (6 + notified_len [0x22, 0x21, 0xA9, 0x00, 0x01, 0x00, 0x42, 0x99]) :=
  (C3_parse_notification_spec [0x22, 0x21, 0xA9, 0x00, 0x01, 0x00, 0x42, 0x99]).2
    { command_id := 0xA9, unknown := 0x00, payload := [0x42], crc := some 0x99 } (by rfl)

/-- Recombining the two little-endian length bytes recovers a length of at
most 65535. -/
theorem lo_hi_recombine (n : Nat) (h : n ≤ 65535) :
    ((n / 256 % 256) <<< 8) ||| (n % 256) = n := by
  have h1 : n / 256 % 256 = n / 256 := Nat.mod_eq_of_lt (by omega)
  rw [h1, Nat.shiftLeft_eq]
  have h2 : n % 256 < 2 ^ 8 := by
    have := Nat.mod_lt n (y := 256) (by norm_num)
    norm_num
    omega
  have h3 := Nat.mul_add_lt_is_or h2 (n / 256)
  rw [Nat.mul_comm (n / 256) (2 ^ 8), ← h3]
  omega

/-- C5: for every command id and payload of length at most 65535, parsing the
built control packet succeeds, recovering the command id and the payload
length. -/
theorem C5_roundtrip (cmd : Nat) (p : List Nat) (h : p.length ≤ 65535) :
    ∃ n, parse_notification (build_control_packet cmd p) = .ok n ∧
      n.command_id = cmd ∧ n.payload.length = p.length := by
  rw [build_control_packet_eq]
  have hlist : ([0x22, 0x21, cmd, 0x00, p.length % 256, p.length / 256 % 256]
        ++ p ++ [crc8 p, 0xFF])
      = 0x22 :: 0x21 :: cmd :: 0x00 :: (p.length % 256) :: (p.length / 256 % 256) ::
        (p ++ [crc8 p, 0xFF]) := by
    simp
  rw [hlist]
  simp only [parse_notification, List.getD_cons_succ, List.getD_cons_zero,
    List.length_cons, List.length_append, List.length_singleton, List.drop_succ_cons,
    List.drop_zero]
  rw [lo_hi_recombine p.length h]
  rw [if_neg (by simp), if_neg (by norm_num), if_neg (by simp; omega)]
  refine ⟨_, rfl, rfl, ?_⟩
  simp only [List.take_left]

/-- A witness for the round-trip property at command `0xA1`, payload `[0x00]`. -/
theorem C5_roundtrip_witness :
    ([0x00] : List Nat).length ≤ 65535 ∧
    ∃ n, parse_notification (build_control_packet 0xA1 [0x00]) = .ok n ∧
      n.command_id = 0xA1 ∧ n.payload.length = ([0x00] : List Nat).length :=
  ⟨by norm_num, C5_roundtrip 0xA1 [0x00] (by norm_num)⟩

/-- `printer.rs::PrinterState`. -/
inductive PrinterState where
  | Standby
  | Printing
  | Error (code : Nat)
  | Unknown
deriving DecidableEq, Repr

/-- `printer.rs::PrinterStatus`. -/
structure PrinterStatus where
  battery_percent : Option Nat
  temperature : Option Nat
  state : PrinterState
deriving DecidableEq, Repr

/-- `protocol.rs::parse_printer_status`: the Rust `match` on the status flag
is written as nested ifs; `payload[13]` is only read under the
`payload.len() > 13` guard. -/
def parse_printer_status (payload : List Nat) : PrinterStatus :=
  if 13 ≤ payload.length then
    let overall_flag := payload.getD 12 0
    let status_flag := payload.getD 6 0
    let state : PrinterState :=
      if overall_flag = 0 then
        if status_flag = 0 then .Standby
        else if status_flag = 1 then .Printing
        else .Unknown
      else if 13 < payload.length then .Error (payload.getD 13 0)
      else .Unknown
    { battery_percent := some (payload.getD 9 0),
      temperature := some (payload.getD 10 0), state := state }
  else
    { battery_percent := none, temperature := none, state := .Unknown }

/-- C4: `parse_printer_status` is total; payloads shorter than 13 bytes give
no battery, no temperature and `Unknown`; otherwise battery is byte 9 and
temperature byte 10 unconditionally, and the state is decided by byte 12
(zero: byte 6 maps 0 to Standby, 1 to Printing, otherwise Unknown; nonzero:
`Error` of byte 13 when a 14th byte exists, else Unknown). -/
theorem C4_parse_printer_status_spec (payload : List Nat) :
    (payload.length < 13 →
      parse_printer_status payload =
        { battery_percent := none, temperature := none, state := .Unknown }) ∧
    (13 ≤ payload.length →
      (parse_printer_status payload).battery_percent = some (payload.getD 9 0) ∧
      (parse_printer_status payload).temperature = some (payload.getD 10 0) ∧
      (parse_printer_status payload).state =
        (if payload.getD 12 0 = 0 then
          (if payload.getD 6 0 = 0 then .Standby
           else if payload.getD 6 0 = 1 then .Printing
           else .Unknown)
         else if 13 < payload.length then .Error (payload.getD 13 0)
         else .Unknown)) := by
  unfold parse_printer_status
  constructor
  · intro hlt
    rw [if_neg (by omega)]
  · intro hge
    rw [if_pos hge]
    exact ⟨rfl, rfl, rfl⟩

/-- A witness for the status decoding at the spec's 13-byte example payload. -/
theorem C4_parse_printer_status_spec_witness :
    (parse_printer_status [0, 0, 0, 0, 0, 0, 1, 0, 0, 77, 30, 0, 0]).state =
        PrinterState.Printing ∧
      (parse_printer_status [0, 0, 0, 0, 0, 0, 1, 0, 0, 77, 30, 0, 0]).battery_percent =
        some 77 ∧
      (parse_printer_status [0, 0, 0, 0, 0, 0, 1, 0, 0, 77, 30, 0, 0]).temperature =
        some 30 := by
  have h := (C4_parse_printer_status_spec [0, 0, 0, 0, 0, 0, 1, 0, 0, 77, 30, 0, 0]).2
    (by norm_num)
  exact ⟨h.2.2, h.1, h.2.1⟩

/-- The 64-bit address-space bound used by Rust's `usize::checked_mul`. -/
def USIZE_MAX : Nat := 2 ^ 64 - 1

/-- One iteration group of `pack_1bpp_pixels`: the byte packed from the
pixels at indices `base ≤ i < e`, bit `i - base` set when the pixel is 0. -/
def pack_group (pixels : List Nat) (base e : Nat) : Nat :=
  (List.range (e - base)).foldl
    (fun b bit => b ||| ((if pixels.getD (base + bit) 0 = 0 then 1 else 0) <<< bit)) 0

/-- `protocol.rs::pack_1bpp_pixels`. -/
def pack_1bpp_pixels (pixels : List Nat) (width height : Nat) :
    Except String (List Nat) :=
  if width = 0 ∨ height = 0 then .error "width/height must be > 0"
  else if USIZE_MAX < width * height then .error "width*height overflow"
  else if pixels.length < width * height then .error "not enough pixels"
  else
    let bytes_per_row := (width + 7) / 8
    .ok ((List.range height).flatMap (fun row =>
      (List.range bytes_per_row).map (fun group =>
        pack_group pixels (row * width + group * 8)
          (min (row * width + group * 8 + 8) (row * width + width)))))

theorem flatMap_range_map_length (h b : Nat) (g : Nat → Nat → Nat) :
    ((List.range h).flatMap (fun r => (List.range b).map (g r))).length = h * b := by
  induction h with
  | zero => simp
  | succ n ih =>
    rw [List.range_succ, List.flatMap_append]
    simp only [List.length_append, ih, List.flatMap_cons, List.flatMap_nil,
      List.append_nil, List.length_map, List.length_range]
    ring

theorem flatMap_range_map_getD (h b : Nat) (g : Nat → Nat → Nat) {row group : Nat}
    (hrow : row < h) (hgroup : group < b) :
    ((List.range h).flatMap (fun r => (List.range b).map (g r))).getD
        (row * b + group) 0 = g row group := by
  induction h with
  | zero => omega
  | succ n ih =>
    rw [List.range_succ, List.flatMap_append]
    rcases Nat.lt_or_ge row n with hr | hr
    · have hlt : row * b + group < ((List.range n).flatMap
          (fun r => (List.range b).map (g r))).length := by
        rw [flatMap_range_map_length]
        calc row * b + group < row * b + b := by omega
          _ = (row + 1) * b := by ring
          _ ≤ n * b := Nat.mul_le_mul_right b (by omega)
      rw [List.getD_eq_getElem?_getD, List.getElem?_append_left hlt,
        ← List.getD_eq_getElem?_getD, ih hr]
    · have hrow' : row = n := by omega
      subst hrow'
      have hlen : ((List.range row).flatMap
          (fun r => (List.range b).map (g r))).length = row * b :=
        flatMap_range_map_length row b g
      rw [List.getD_eq_getElem?_getD, List.getElem?_append_right (by omega), hlen]
      simp only [List.flatMap_cons, List.flatMap_nil, List.append_nil]
      rw [show row * b + group - row * b = group from by omega]
      rw [List.getElem?_map, List.getElem?_range hgroup]
      rfl

theorem pack_group_testBit (pixels : List Nat) (base e bit : Nat) :
    (pack_group pixels base e).testBit bit =
      (decide (bit < e - base) && decide (pixels.getD (base + bit) 0 = 0)) := by
  unfold pack_group
  generalize e - base = n
  induction n with
  | zero => simp
  | succ m ih =>
    rw [List.range_succ, List.foldl_append, List.foldl_cons, List.foldl_nil,
      Nat.testBit_or, ih, Nat.testBit_shiftLeft]
    rcases Nat.lt_trichotomy bit m with hb | hb | hb
    · have h1 : decide (bit < m) = true := by simp [hb]
      have h2 : decide (bit ≥ m) = false := by simp; omega
      have h3 : decide (bit < m + 1) = true := by simp; omega
      rw [h1, h2, h3]
      simp
    · subst hb
      have h1 : decide (bit < bit) = false := by simp
      have h2 : decide (bit ≥ bit) = true := by simp
      have h3 : decide (bit < bit + 1) = true := by simp
      rw [h1, h2, h3, Nat.sub_self]
      split
      next hc =>
        rw [List.getD_eq_getElem?_getD] at hc
        simp [hc]
      next hc =>
        rw [List.getD_eq_getElem?_getD] at hc
        simp [hc]
    · have h1 : decide (bit < m) = false := by simp; omega
      have h2 : decide (bit < m + 1) = false := by simp; omega
      have h4 : (if pixels.getD (base + m) 0 = 0 then (1 : Nat) else 0).testBit
          (bit - m) = false := by
        have hbm : bit - m = (bit - m - 1) + 1 := by omega
        rw [hbm]
        split
        · simp [Nat.testBit_add_one]
        · simp
      rw [h1, h2, h4]
      simp

/-- C2: `pack_1bpp_pixels` fails on zero dimensions, on an address-space
overflow of `width*height`, and on a buffer shorter than `width*height`;
otherwise it succeeds, emits `(width+7)/8` bytes per row, and bit `i` of a
group byte is set exactly when the pixel at position `i` of that group is 0,
with out-of-row bits left 0; for width=8, height=1,
pixels=[0,255,0,255,0,255,0,255] the output is the single byte 0b01010101. -/
theorem C2_pack_1bpp_pixels_spec :
    (∀ (pixels : List Nat) (width height : Nat), width = 0 ∨ height = 0 →
      pack_1bpp_pixels pixels width height = .error "width/height must be > 0") ∧
    (∀ (pixels : List Nat) (width height : Nat), width ≠ 0 → height ≠ 0 →
      USIZE_MAX < width * height →
      pack_1bpp_pixels pixels width height = .error "width*height overflow") ∧
    (∀ (pixels : List Nat) (width height : Nat), width ≠ 0 → height ≠ 0 →
      width * height ≤ USIZE_MAX → pixels.length < width * height →
      pack_1bpp_pixels pixels width height = .error "not enough pixels") ∧
    (∀ (pixels : List Nat) (width height : Nat), width ≠ 0 → height ≠ 0 →
      width * height ≤ USIZE_MAX → width * height ≤ pixels.length →
      ∃ out, pack_1bpp_pixels pixels width height = .ok out ∧
        out.length = height * ((width + 7) / 8) ∧
        ∀ row, row < height → ∀ group, group < (width + 7) / 8 → ∀ bit, bit < 8 →
          (out.getD (row * ((width + 7) / 8) + group) 0).testBit bit =
            (if group * 8 + bit < width then
              decide (pixels.getD (row * width + (group * 8 + bit)) 0 = 0)
            else false)) ∧
    pack_1bpp_pixels [0, 255, 0, 255, 0, 255, 0, 255] 8 1 = .ok [0b01010101] := by
  refine ⟨fun pixels width height h0 => ?_, fun pixels width height hw hh hov => ?_,
    fun pixels width height hw hh hov hlen => ?_,
    fun pixels width height hw hh hov hlen => ?_, ?_⟩
  · unfold pack_1bpp_pixels
    rw [if_pos h0]
  · unfold pack_1bpp_pixels
    rw [if_neg (by omega), if_pos hov]
  · unfold pack_1bpp_pixels
    rw [if_neg (by omega), if_neg (by omega), if_pos hlen]
  · unfold pack_1bpp_pixels
    rw [if_neg (by omega), if_neg (by omega), if_neg (by omega)]
    refine ⟨_, rfl, ?_, ?_⟩
    · exact flatMap_range_map_length height ((width + 7) / 8) _
    · intro row hrow group hgroup bit hbit
      rw [flatMap_range_map_getD height ((width + 7) / 8) _ hrow hgroup,
        pack_group_testBit]
      by_cases hc : group * 8 + bit < width
      · rw [if_pos hc,
          show row * width + group * 8 + bit = row * width + (group * 8 + bit) from by ring]
        have h5 : bit < min (row * width + group * 8 + 8) (row * width + width) -
            (row * width + group * 8) := by
          generalize row * width = a
          omega
        simp [h5]
      · rw [if_neg hc]
        have h5 : ¬ bit < min (row * width + group * 8 + 8) (row * width + width) -
            (row * width + group * 8) := by
          generalize row * width = a
          omega
        simp [h5]
  · rfl

/-- A witness for the success branch of the packing specification at the
spec's 8x1 example. -/
theorem C2_pack_1bpp_pixels_spec_witness :
    (8 : Nat) ≠ 0 ∧ (1 : Nat) ≠ 0 ∧ 8 * 1 ≤ USIZE_MAX ∧
      8 * 1 ≤ ([0, 255, 0, 255, 0, 255, 0, 255] : List Nat).length ∧
      ∃ out, pack_1bpp_pixels [0, 255, 0, 255, 0, 255, 0, 255] 8 1 = .ok out ∧
        out.length = 1 * ((8 + 7) / 8) ∧
        ∀ row, row < 1 → ∀ group, group < (8 + 7) / 8 → ∀ bit, bit < 8 →
          (out.getD (row * ((8 + 7) / 8) + group) 0).testBit bit =
            (if group * 8 + bit < 8 then
              decide (([0, 255, 0, 255, 0, 255, 0, 255] : List Nat).getD
                (row * 8 + (group * 8 + bit)) 0 = 0)
            else false) :=
  ⟨by norm_num, by norm_num, by norm_num [USIZE_MAX], by norm_num,
    C2_pack_1bpp_pixels_spec.2.2.2.1 [0, 255, 0, 255, 0, 255, 0, 255] 8 1
      (by norm_num) (by norm_num) (by norm_num [USIZE_MAX]) (by norm_num)⟩

/-- One write of the `rotate_mirror_pixels` loop body: the pixel at
`(row, col)` is stored at `(height-1-row, width-1-col)`. -/
def rot_step (pixels : List Nat) (width height row : Nat)
    (buf : List Nat) (col : Nat) : List Nat :=
  buf.set ((height - 1 - row) * width + (width - 1 - col))
    (pixels.getD (row * width + col) 0)

/-- The inner (column) loop of `rotate_mirror_pixels` for one row. -/
def rot_row (pixels : List Nat) (width height : Nat)
    (buf : List Nat) (row : Nat) : List Nat :=
  (List.range width).foldl (rot_step pixels width height row) buf

/-- `protocol.rs::rotate_mirror_pixels`: a fresh zero buffer of the input's
length, filled by the nested row/column loop. -/
def rotate_mirror_pixels (pixels : List Nat) (width height : Nat) : List Nat :=
  (List.range height).foldl (rot_row pixels width height)
    (List.replicate pixels.length 0)

theorem foldl_set_length {α : Type} (f : List Nat → α → List Nat)
    (hf : ∀ b x, (f b x).length = b.length) :
    ∀ (l : List α) (b : List Nat), (l.foldl f b).length = b.length := by
  intro l
  induction l with
  | nil => intro b; rfl
  | cons x xs ih => intro b; rw [List.foldl_cons, ih, hf]

theorem rot_row_length (pixels : List Nat) (width height : Nat)
    (buf : List Nat) (row : Nat) :
    (rot_row pixels width height buf row).length = buf.length :=
  foldl_set_length _ (fun b x => by simp [rot_step]) _ _

theorem rotate_mirror_length (pixels : List Nat) (width height : Nat) :
    (rotate_mirror_pixels pixels width height).length = pixels.length := by
  unfold rotate_mirror_pixels
  rw [foldl_set_length _ (fun b x => rot_row_length pixels width height b x)]
  exact List.length_replicate _ _

theorem rot_inner_getElem?_other (pixels : List Nat) (width height row : Nat)
    (k : Nat) (buf : List Nat) (i : Nat)
    (hother : ∀ col, col < k → (height - 1 - row) * width + (width - 1 - col) ≠ i) :
    ((List.range k).foldl (rot_step pixels width height row) buf)[i]? = buf[i]? := by
  induction k with
  | zero => rfl
  | succ m ih =>
    rw [List.range_succ, List.foldl_append, List.foldl_cons, List.foldl_nil]
    simp only [rot_step]
    rw [List.getElem?_set_ne (hother m (by omega))]
    exact ih (fun col hc => hother col (by omega))

theorem rot_inner_getElem?_hit (pixels : List Nat) (width height row : Nat)
    (k col : Nat) (buf : List Nat) (hcol : col < k) (hk : k ≤ width)
    (hlt : (height - 1 - row) * width + (width - 1 - col) < buf.length) :
    ((List.range k).foldl (rot_step pixels width height row)
        buf)[(height - 1 - row) * width + (width - 1 - col)]? =
      some (pixels.getD (row * width + col) 0) := by
  induction k with
  | zero => omega
  | succ m ih =>
    rw [List.range_succ, List.foldl_append, List.foldl_cons, List.foldl_nil]
    simp only [rot_step]
    rcases Nat.lt_or_ge col m with hc | hc
    · have hne : (height - 1 - row) * width + (width - 1 - m) ≠
          (height - 1 - row) * width + (width - 1 - col) := by
        intro hEq
        have := Nat.add_left_cancel hEq
        omega
      rw [List.getElem?_set_ne hne]
      exact ih hc (by omega)
    · have hcm : col = m := by omega
      subst hcm
      have hl : ((List.range col).foldl (rot_step pixels width height row)
          buf).length = buf.length :=
        foldl_set_length _ (fun b x => by simp [rot_step]) _ _
      rw [List.getElem?_set_self (by rw [hl]; exact hlt)]

theorem mul_add_inj {w a b a' b' : Nat} (hb : b < w) (hb' : b' < w)
    (h : a * w + b = a' * w + b') : a = a' ∧ b = b' := by
  rcases Nat.lt_trichotomy a a' with hlt | heq | hgt
  · exfalso
    have h1 : (a + 1) * w ≤ a' * w := Nat.mul_le_mul_right w (by omega)
    have h2 : (a + 1) * w = a * w + w := by ring
    omega
  · subst heq
    exact ⟨rfl, Nat.add_left_cancel h⟩
  · exfalso
    have h1 : (a' + 1) * w ≤ a * w := Nat.mul_le_mul_right w (by omega)
    have h2 : (a' + 1) * w = a' * w + w := by ring
    omega

theorem rotate_mirror_getElem? (pixels : List Nat) (width height row col : Nat)
    (hrow : row < height) (hcol : col < width)
    (hlen : width * height ≤ pixels.length) :
    (rotate_mirror_pixels pixels width
        height)[(height - 1 - row) * width + (width - 1 - col)]? =
      some (pixels.getD (row * width + col) 0) := by
  have hd : (height - 1 - row) * width + (width - 1 - col) < pixels.length := by
    have h1 : (height - 1 - row) * width ≤ (height - 1) * width :=
      Nat.mul_le_mul_right width (by omega)
    have h2 : (height - 1) * width + width = height * width := by
      calc (height - 1) * width + width = (height - 1 + 1) * width := by ring
        _ = height * width := by rw [show height - 1 + 1 = height from by omega]
    have h3 : height * width = width * height := Nat.mul_comm height width
    omega
  unfold rotate_mirror_pixels
  suffices H : ∀ m, m ≤ height → row < m →
      ((List.range m).foldl (rot_row pixels width height)
          (List.replicate pixels.length
            0))[(height - 1 - row) * width + (width - 1 - col)]? =
        some (pixels.getD (row * width + col) 0) from H height le_rfl hrow
  intro m
  induction m with
  | zero => omega
  | succ n ih =>
    intro hm hrm
    rw [List.range_succ, List.foldl_append, List.foldl_cons, List.foldl_nil]
    simp only [rot_row]
    rcases Nat.lt_or_ge row n with hr | hr
    · rw [rot_inner_getElem?_other]
      · exact ih (by omega) hr
      · intro c hc hEq
        have hx : width - 1 - c < width := by omega
        have hy : width - 1 - col < width := by omega
        have := mul_add_inj hx hy hEq
        omega
    · have hrn : row = n := by omega
      subst hrn
      have hl : ((List.range row).foldl (rot_row pixels width height)
          (List.replicate pixels.length 0)).length = pixels.length := by
        rw [foldl_set_length _ (fun b x => rot_row_length pixels width height b x)]
        exact List.length_replicate _ _
      exact rot_inner_getElem?_hit pixels width height row width col _ hcol le_rfl
        (by rw [hl]; exact hd)

/-- C6 counterexample: for a buffer strictly longer than `width*height`
(here 2 bytes, width = height = 1) the double rotation is not the identity:
the byte past `width*height` is zeroed, so the claim fails as stated for
buffers of length at least `width*height`. -/
theorem C6_rotate_mirror_not_involution_cex :
    rotate_mirror_pixels (rotate_mirror_pixels [5, 7] 1 1) 1 1 ≠ [5, 7] := by
  decide

/-- C6 (amended): `rotate_mirror_pixels` moves the pixel at `(row, col)` to
`(height-1-row, width-1-col)` whenever the buffer holds at least
`width*height` bytes, and it is an involution on buffers of exactly
`width*height` bytes (longer buffers have their tail zeroed, so the
involution requires the exact length). -/
theorem C6_rotate_mirror_amended :
    (∀ (pixels : List Nat) (width height row col : Nat),
      row < height → col < width → width * height ≤ pixels.length →
      (rotate_mirror_pixels pixels width height).getD
          ((height - 1 - row) * width + (width - 1 - col)) 0 =
        pixels.getD (row * width + col) 0) ∧
    (∀ (pixels : List Nat) (width height : Nat), 1 ≤ width → 1 ≤ height →
      pixels.length = width * height →
      rotate_mirror_pixels (rotate_mirror_pixels pixels width height) width height
        = pixels) := by
  have hmove : ∀ (pixels : List Nat) (width height row col : Nat),
      row < height → col < width → width * height ≤ pixels.length →
      (rotate_mirror_pixels pixels width height).getD
          ((height - 1 - row) * width + (width - 1 - col)) 0 =
        pixels.getD (row * width + col) 0 := by
    intro pixels width height row col hrow hcol hlen
    rw [List.getD_eq_getElem?_getD,
      rotate_mirror_getElem? pixels width height row col hrow hcol hlen]
    rfl
  refine ⟨hmove, ?_⟩
  intro pixels width height hw hh hlen
  apply List.ext_getElem?
  intro i
  by_cases hi : i < width * height
  · have hcw : i % width < width := Nat.mod_lt _ hw
    have hrh : i / width < height := Nat.div_lt_of_lt_mul hi
    have hieq : i / width * width + i % width = i := by
      have hdm := Nat.div_add_mod i width
      have hmulc : width * (i / width) = i / width * width := Nat.mul_comm _ _
      omega
    generalize hR : i / width = r at hrh hieq
    generalize hC : i % width = c at hcw hieq
    have hr' : height - 1 - r < height := by omega
    have hc' : width - 1 - c < width := by omega
    have hdst : (height - 1 - (height - 1 - r)) * width +
        (width - 1 - (width - 1 - c)) = i := by
      rw [show height - 1 - (height - 1 - r) = r from by omega,
        show width - 1 - (width - 1 - c) = c from by omega]
      exact hieq
    have hL := rotate_mirror_getElem? (rotate_mirror_pixels pixels width height)
      width height (height - 1 - r) (width - 1 - c) hr' hc'
      (by rw [rotate_mirror_length]; omega)
    rw [hdst] at hL
    have hstep2 : (rotate_mirror_pixels pixels width height).getD
        ((height - 1 - r) * width + (width - 1 - c)) 0 =
        pixels.getD (r * width + c) 0 :=
      hmove pixels width height r c hrh hcw (by omega)
    have hgi : pixels[i]? = some pixels[i] := List.getElem?_eq_getElem (by omega)
    rw [hL, hstep2, hieq, List.getD_eq_getElem?_getD, hgi]
    rfl
  · rw [List.getElem?_eq_none, List.getElem?_eq_none]
    · omega
    · rw [rotate_mirror_length, rotate_mirror_length]; omega

/-- A witness for the amended rotate-mirror involution on a 2x2 buffer. -/
theorem C6_rotate_mirror_amended_witness :
    (1 : Nat) ≤ 2 ∧ (1 : Nat) ≤ 2 ∧ ([1, 2, 3, 4] : List Nat).length = 2 * 2 ∧
    rotate_mirror_pixels (rotate_mirror_pixels [1, 2, 3, 4] 2 2) 2 2 = [1, 2, 3, 4] :=
  ⟨by norm_num, by norm_num, by decide,
    C6_rotate_mirror_amended.2 [1, 2, 3, 4] 2 2 (by norm_num) (by norm_num) (by decide)⟩

/-- The Threshold branch of `printer.rs::print_image_from_path`:
`pixel = if pixel > 127 { 255 } else { 0 }` applied to every pixel. -/
def threshold_dither (pixels : List Nat) : List Nat :=
  pixels.map (fun p => if 127 < p then 255 else 0)

/-- C7 counterexample: the Threshold strategy maps the boundary value 127 to
0 (black), not 255 (white), refuting the claim that 127 maps to white. -/
theorem C7_threshold_boundary_cex :
    threshold_dither [127] = [0] ∧ ([0] : List Nat) ≠ [255] := by
  decide

/-- C7 (amended): the Threshold strategy is a per-pixel hard cut at 127 with
the boundary on the black side: values strictly greater than 127 become 255,
values at most 127 (including 127 itself) become 0. -/
theorem C7_threshold_amended (pixels : List Nat) (i : Nat) (hi : i < pixels.length) :
    (127 < pixels.getD i 0 → (threshold_dither pixels).getD i 0 = 255) ∧
    (pixels.getD i 0 ≤ 127 → (threshold_dither pixels).getD i 0 = 0) := by
  have hg : pixels[i]? = some pixels[i] := List.getElem?_eq_getElem hi
  have hgD : pixels.getD i 0 = pixels[i] := by
    rw [List.getD_eq_getElem?_getD, hg]
    rfl
  constructor
  · intro h
    rw [List.getD_eq_getElem?_getD]
    simp only [threshold_dither, List.getElem?_map, hg, Option.map_some']
    rw [if_pos (by rw [hgD] at h; exact h)]
    rfl
  · intro h
    rw [List.getD_eq_getElem?_getD]
    simp only [threshold_dither, List.getElem?_map, hg, Option.map_some']
    rw [if_neg (by rw [hgD] at h; omega)]
    rfl

/-- A witness for the amended Threshold cut at pixel value 128. -/
theorem C7_threshold_amended_witness :
    (0 : Nat) < ([128] : List Nat).length ∧
    ((127 < ([128] : List Nat).getD 0 0 → (threshold_dither [128]).getD 0 0 = 255) ∧
     (([128] : List Nat).getD 0 0 ≤ 127 → (threshold_dither [128]).getD 0 0 = 0)) :=
  ⟨by norm_num, C7_threshold_amended [128] 0 (by norm_num)⟩

theorem foldl_getElem?_invariant {α : Type} (f : List Nat → α → List Nat)
    (l : List α) (b : List Nat) (i : Nat)
    (h : ∀ x ∈ l, ∀ c : List Nat, getElem? (f c x) i = getElem? c i) :
    getElem? (l.foldl f b) i = getElem? b i := by
  induction l generalizing b with
  | nil => rfl
  | cons a as ih =>
    rw [List.foldl_cons, ih _ (fun x hx c => h x (List.mem_cons_of_mem a hx) c),
      h a (List.mem_cons_self a as) b]

/-- The 4x4 Bayer matrix of `dithering.rs::bayer_dither`. -/
def BAYER_MATRIX : List (List Nat) :=
  [[0, 8, 2, 10], [12, 4, 14, 6], [3, 11, 1, 9], [15, 7, 13, 5]]

/-- The matrix cell `BAYER_MATRIX[y % 4][x % 4]` used as threshold. -/
def bayer_threshold (x y : Nat) : Nat :=
  (BAYER_MATRIX.getD (y % 4) []).getD (x % 4) 0

/-- The per-pixel decision of `bayer_dither`: scaled intensity `p / 16`
strictly above the matrix threshold gives white (255), otherwise black (0). -/
def bayer_pixel (p x y : Nat) : Nat :=
  if bayer_threshold x y < p / 16 then 255 else 0

/-- `dithering.rs::bayer_dither`: the in-place nested loop over rows and
columns, each pixel overwritten from its own current value. -/
def bayer_dither (buf : List Nat) (width height : Nat) : List Nat :=
  (List.range height).foldl (fun b y =>
    (List.range width).foldl (fun b x =>
      b.set (y * width + x) (bayer_pixel (b.getD (y * width + x) 0) x y)) b) buf

theorem bayer_inner_hit (width y k x : Nat) (b : List Nat)
    (hx : x < k) (hk : k ≤ width) (hlt : y * width + x < b.length) :
    getElem? ((List.range k).foldl (fun bb xx =>
        bb.set (y * width + xx) (bayer_pixel (bb.getD (y * width + xx) 0) xx y)) b)
      (y * width + x) = some (bayer_pixel (b.getD (y * width + x) 0) x y) := by
  induction k with
  | zero => omega
  | succ m ih =>
    rw [List.range_succ, List.foldl_append, List.foldl_cons, List.foldl_nil]
    rcases Nat.lt_or_ge x m with hc | hc
    · rw [List.getElem?_set_ne (by omega)]
      exact ih hc (by omega)
    · have hxm : x = m := by omega
      subst hxm
      have hpre : getElem? ((List.range x).foldl (fun bb xx =>
          bb.set (y * width + xx) (bayer_pixel (bb.getD (y * width + xx) 0) xx y)) b)
          (y * width + x) = getElem? b (y * width + x) := by
        apply foldl_getElem?_invariant
        intro xx hxx c
        have hxxm : xx < x := List.mem_range.mp hxx
        exact List.getElem?_set_ne (by omega)
      have hl : ((List.range x).foldl (fun bb xx =>
          bb.set (y * width + xx) (bayer_pixel (bb.getD (y * width + xx) 0) xx y))
          b).length = b.length :=
        foldl_set_length _ (fun bb xx => by simp) _ _
      rw [List.getElem?_set_self (by rw [hl]; exact hlt)]
      have hval : ((List.range x).foldl (fun bb xx =>
          bb.set (y * width + xx) (bayer_pixel (bb.getD (y * width + xx) 0) xx y))
          b).getD (y * width + x) 0 = b.getD (y * width + x) 0 := by
        rw [List.getD_eq_getElem?_getD, List.getD_eq_getElem?_getD, hpre]
      rw [hval]

theorem bayer_dither_getElem? (buf : List Nat) (width height x y : Nat)
    (hx : x < width) (hy : y < height) (hlen : width * height ≤ buf.length) :
    getElem? (bayer_dither buf width height) (y * width + x) =
      some (bayer_pixel (buf.getD (y * width + x) 0) x y) := by
  have hd : y * width + x < buf.length := by
    have h1 : (y + 1) * width ≤ height * width := Nat.mul_le_mul_right width (by omega)
    have h2 : (y + 1) * width = y * width + width := by ring
    have h3 : height * width = width * height := Nat.mul_comm _ _
    omega
  unfold bayer_dither
  suffices H : ∀ m, m ≤ height → y < m →
      getElem? ((List.range m).foldl (fun b yy =>
        (List.range width).foldl (fun b xx =>
          b.set (yy * width + xx) (bayer_pixel (b.getD (yy * width + xx) 0) xx yy)) b)
        buf) (y * width + x) =
        some (bayer_pixel (buf.getD (y * width + x) 0) x y) from H height le_rfl hy
  intro m
  induction m with
  | zero => omega
  | succ n ih =>
    intro hm hym
    rw [List.range_succ, List.foldl_append, List.foldl_cons, List.foldl_nil]
    rcases Nat.lt_or_ge y n with hyn | hyn
    · have hpres : ∀ c : List Nat, getElem? ((List.range width).foldl (fun b xx =>
          b.set (n * width + xx) (bayer_pixel (b.getD (n * width + xx) 0) xx n)) c)
          (y * width + x) = getElem? c (y * width + x) := by
        intro c
        apply foldl_getElem?_invariant
        intro xx hxx cc
        apply List.getElem?_set_ne
        have hxxw : xx < width := List.mem_range.mp hxx
        have h1 : (y + 1) * width ≤ n * width := Nat.mul_le_mul_right width (by omega)
        have h2 : (y + 1) * width = y * width + width := by ring
        omega
      rw [hpres]
      exact ih (by omega) hyn
    · have hyn' : y = n := by omega
      subst hyn'
      have hfl : ((List.range y).foldl (fun b yy =>
          (List.range width).foldl (fun b xx =>
            b.set (yy * width + xx) (bayer_pixel (b.getD (yy * width + xx) 0) xx yy)) b)
          buf).length = buf.length :=
        foldl_set_length _ (fun b yy => foldl_set_length _ (fun bb xx => by simp) _ _) _ _
      have hpre : getElem? ((List.range y).foldl (fun b yy =>
          (List.range width).foldl (fun b xx =>
            b.set (yy * width + xx) (bayer_pixel (b.getD (yy * width + xx) 0) xx yy)) b)
          buf) (y * width + x) = getElem? buf (y * width + x) := by
        apply foldl_getElem?_invariant
        intro r hr c
        apply foldl_getElem?_invariant
        intro xx hxx cc
        apply List.getElem?_set_ne
        have hrn : r < y := List.mem_range.mp hr
        have hxxw : xx < width := List.mem_range.mp hxx
        have h1 : (r + 1) * width ≤ y * width := Nat.mul_le_mul_right width (by omega)
        have h2 : (r + 1) * width = r * width + width := by ring
        omega
      rw [bayer_inner_hit width y width x _ hx le_rfl (by rw [hfl]; exact hd)]
      have hval : ((List.range y).foldl (fun b yy =>
          (List.range width).foldl (fun b xx =>
            b.set (yy * width + xx) (bayer_pixel (b.getD (yy * width + xx) 0) xx yy)) b)
          buf).getD (y * width + x) 0 = buf.getD (y * width + x) 0 := by
        rw [List.getD_eq_getElem?_getD, List.getD_eq_getElem?_getD, hpre]
      rw [hval]

/-- C10: a pixel of value 255 at a position whose Bayer cell `(y mod 4,
x mod 4)` holds 15 is mapped to 0 (since 255/16 = 15 is not strictly above
the threshold), and to 255 at every other position; the cell holds 15
exactly at `(3, 0)`, so an all-255 image keeps exactly one black pixel per
aligned 4x4 tile. -/
theorem C10_bayer_all_white (buf : List Nat) (width height x y : Nat)
    (hx : x < width) (hy : y < height) (hlen : buf.length = width * height)
    (hwhite : buf.getD (y * width + x) 0 = 255) :
    ((bayer_dither buf width height).getD (y * width + x) 0 =
      (if y % 4 = 3 ∧ x % 4 = 0 then 0 else 255)) ∧
    (bayer_threshold x y = 15 ↔ (y % 4 = 3 ∧ x % 4 = 0)) := by
  have hchar := bayer_dither_getElem? buf width height x y hx hy (le_of_eq hlen.symm)
  rw [hwhite] at hchar
  have hkey : ∀ a : Nat, a < 4 → ∀ b : Nat, b < 4 →
      ((if (BAYER_MATRIX.getD a []).getD b 0 < 255 / 16 then (255 : Nat) else 0) =
        if a = 3 ∧ b = 0 then 0 else 255) := by decide
  have hkey2 : ∀ a : Nat, a < 4 → ∀ b : Nat, b < 4 →
      ((BAYER_MATRIX.getD a []).getD b 0 = 15 ↔ (a = 3 ∧ b = 0)) := by decide
  constructor
  · rw [List.getD_eq_getElem?_getD, hchar]
    show bayer_pixel 255 x y = _
    unfold bayer_pixel bayer_threshold
    exact hkey (y % 4) (by omega) (x % 4) (by omega)
  · unfold bayer_threshold
    exact hkey2 (y % 4) (by omega) (x % 4) (by omega)

/-- A witness for the Bayer all-white behaviour on a 4x4 all-255 image, at
the black position (x=0, y=3) of the tile. -/
theorem C10_bayer_all_white_witness :
    (0 : Nat) < 4 ∧ (3 : Nat) < 4 ∧ (List.replicate 16 (255 : Nat)).length = 4 * 4 ∧
    (List.replicate 16 (255 : Nat)).getD (3 * 4 + 0) 0 = 255 ∧
    ((bayer_dither (List.replicate 16 255) 4 4).getD (3 * 4 + 0) 0 =
      (if 3 % 4 = 3 ∧ 0 % 4 = 0 then 0 else 255)) ∧
    (bayer_threshold 0 3 = 15 ↔ (3 % 4 = 3 ∧ 0 % 4 = 0)) := by
  refine ⟨by norm_num, by norm_num, by decide, by decide, ?_, ?_⟩
  · exact (C10_bayer_all_white (List.replicate 16 255) 4 4 0 3 (by norm_num)
      (by norm_num) (by decide) (by decide)).1
  · exact (C10_bayer_all_white (List.replicate 16 255) 4 4 0 3 (by norm_num)
      (by norm_num) (by decide) (by decide)).2

/-- The i16 `clamp(0, 255)` followed by the `as u8` cast in
`dithering.rs::atkinson_dither`. -/
def clamp_byte (v : Int) : Nat := (min 255 (max 0 v)).toNat

/-- One neighbour update closure of `atkinson_dither`: in-bounds check, then
add the 1/8 error share. Rust computes `(error as f32 * 0.125) as i16`,
which for `error` in [-255, 255] is exact float multiplication followed by
truncation toward zero, i.e. `Int.tdiv error 8`. -/
def atk_update (width height : Nat) (error : Int) (buf : List Nat)
    (ux uy : Int) : List Nat :=
  if 0 ≤ ux ∧ ux < (width : Int) ∧ 0 ≤ uy ∧ uy < (height : Int) then
    let idx := uy.toNat * width + ux.toNat
    buf.set idx (clamp_byte ((buf.getD idx 0 : Int) + Int.tdiv error 8))
  else buf

/-- The loop body of `atkinson_dither` for the pixel `(x, y)`: quantise the
current value against 127, store it, and diffuse the error to the six
neighbours in the order of the source. -/
def atk_step (width height : Nat) (buf : List Nat) (x y : Nat) : List Nat :=
  let idx := y * width + x
  let old_pixel := buf.getD idx 0
  let new_pixel : Nat := if 127 < old_pixel then 255 else 0
  let buf1 := buf.set idx new_pixel
  let error : Int := (old_pixel : Int) - (new_pixel : Int)
  let b1 := atk_update width height error buf1 ((x : Int) + 1) (y : Int)
  let b2 := atk_update width height error b1 ((x : Int) + 2) (y : Int)
  let b3 := atk_update width height error b2 ((x : Int) - 1) ((y : Int) + 1)
  let b4 := atk_update width height error b3 (x : Int) ((y : Int) + 1)
  let b5 := atk_update width height error b4 ((x : Int) + 1) ((y : Int) + 1)
  atk_update width height error b5 (x : Int) ((y : Int) + 2)

/-- `dithering.rs::atkinson_dither`: raster-order (row-major, left-to-right,
top-to-bottom) traversal. -/
def atkinson_dither (buf : List Nat) (width height : Nat) : List Nat :=
  (List.range height).foldl (fun b y =>
    (List.range width).foldl (fun b x => atk_step width height b x y) b) buf

theorem atk_update_length (width height : Nat) (error : Int) (b : List Nat)
    (ux uy : Int) : (atk_update width height error b ux uy).length = b.length := by
  simp only [atk_update]
  split <;> simp

theorem atk_step_length (width height : Nat) (b : List Nat) (x y : Nat) :
    (atk_step width height b x y).length = b.length := by
  simp only [atk_step]
  rw [atk_update_length, atk_update_length, atk_update_length, atk_update_length,
    atk_update_length, atk_update_length, List.length_set]

theorem atk_update_preserve (width height : Nat) (error : Int) (b : List Nat)
    (ux uy : Int) (i : Nat)
    (htgt : 0 ≤ ux → ux < (width : Int) → 0 ≤ uy → uy < (height : Int) →
      uy.toNat * width + ux.toNat ≠ i) :
    getElem? (atk_update width height error b ux uy) i = getElem? b i := by
  simp only [atk_update]
  split
  next hc => exact List.getElem?_set_ne (htgt hc.1 hc.2.1 hc.2.2.1 hc.2.2.2)
  next => rfl

theorem atk_step_getElem?_lt (width height : Nat) (b : List Nat) (x y : Nat)
    (hx : x < width) (i : Nat) (hip : i < y * width + x) :
    getElem? (atk_step width height b x y) i = getElem? b i := by
  simp only [atk_step]
  rw [atk_update_preserve, atk_update_preserve, atk_update_preserve,
    atk_update_preserve, atk_update_preserve, atk_update_preserve,
    List.getElem?_set_ne (by omega)]
  all_goals
    intro h1 h2 h3 h4
    simp only [show ((y : Int)).toNat = y from by omega,
      show ((y : Int) + 1).toNat = y + 1 from by omega,
      show ((y : Int) + 2).toNat = y + 2 from by omega,
      show ((x : Int)).toNat = x from by omega,
      show ((x : Int) + 1).toNat = x + 1 from by omega,
      show ((x : Int) + 2).toNat = x + 2 from by omega,
      show ((x : Int) - 1).toNat = x - 1 from by omega]
    have hr1 : (y + 1) * width = y * width + width := by ring
    have hr2 : (y + 2) * width = y * width + 2 * width := by ring
    omega

theorem atk_step_getElem?_self (width height : Nat) (b : List Nat) (x y : Nat)
    (hx : x < width) (hlt : y * width + x < b.length) :
    getElem? (atk_step width height b x y) (y * width + x) =
      some (if 127 < b.getD (y * width + x) 0 then 255 else 0) := by
  simp only [atk_step]
  rw [atk_update_preserve, atk_update_preserve, atk_update_preserve,
    atk_update_preserve, atk_update_preserve, atk_update_preserve,
    List.getElem?_set_self hlt]
  all_goals
    intro h1 h2 h3 h4
    simp only [show ((y : Int)).toNat = y from by omega,
      show ((y : Int) + 1).toNat = y + 1 from by omega,
      show ((y : Int) + 2).toNat = y + 2 from by omega,
      show ((x : Int)).toNat = x from by omega,
      show ((x : Int) + 1).toNat = x + 1 from by omega,
      show ((x : Int) + 2).toNat = x + 2 from by omega,
      show ((x : Int) - 1).toNat = x - 1 from by omega]
    have hr1 : (y + 1) * width = y * width + width := by ring
    have hr2 : (y + 2) * width = y * width + 2 * width := by ring
    omega

theorem atk_inner_binary (width height y : Nat) (hy : y < height) :
    ∀ k, k ≤ width → ∀ b : List Nat, b.length = width * height →
      (∀ i, i < y * width → b.getD i 0 = 0 ∨ b.getD i 0 = 255) →
      (((List.range k).foldl (fun bb x => atk_step width height bb x y) b).length =
          width * height ∧
        ∀ i, i < y * width + k →
          ((List.range k).foldl (fun bb x => atk_step width height bb x y) b).getD i 0
              = 0 ∨
          ((List.range k).foldl (fun bb x => atk_step width height bb x y) b).getD i 0
              = 255) := by
  intro k
  induction k with
  | zero =>
    intro hk b hblen hbin
    exact ⟨hblen, fun i hi => hbin i (by omega)⟩
  | succ m ih =>
    intro hk b hblen hbin
    rw [List.range_succ, List.foldl_append, List.foldl_cons, List.foldl_nil]
    obtain ⟨ihlen, ihbin⟩ := ih (by omega) b hblen hbin
    constructor
    · rw [atk_step_length]
      exact ihlen
    · intro i hi
      rcases Nat.lt_or_ge i (y * width + m) with hlt | hge
      · have hpres := atk_step_getElem?_lt width height
          ((List.range m).foldl (fun bb x => atk_step width height bb x y) b) m y
          (by omega) i hlt
        rw [List.getD_eq_getElem?_getD, hpres, ← List.getD_eq_getElem?_getD]
        exact ihbin i hlt
      · have hieq : i = y * width + m := by omega
        subst hieq
        have hsz : y * width + m <
            ((List.range m).foldl (fun bb x => atk_step width height bb x y) b).length := by
          rw [ihlen]
          have h1 : (y + 1) * width ≤ height * width :=
            Nat.mul_le_mul_right width (by omega)
          have h2 : (y + 1) * width = y * width + width := by ring
          have h3 : height * width = width * height := Nat.mul_comm _ _
          omega
        have hself := atk_step_getElem?_self width height
          ((List.range m).foldl (fun bb x => atk_step width height bb x y) b) m y
          (by omega) hsz
        rw [List.getD_eq_getElem?_getD, hself]
        by_cases hc : 127 < ((List.range m).foldl
            (fun bb x => atk_step width height bb x y) b).getD (y * width + m) 0
        · rw [if_pos hc]
          right
          rfl
        · rw [if_neg hc]
          left
          rfl

theorem atk_outer_binary (width height : Nat) :
    ∀ m, m ≤ height → ∀ b : List Nat, b.length = width * height →
      (((List.range m).foldl (fun bb y =>
          (List.range width).foldl (fun bb2 x => atk_step width height bb2 x y) bb)
          b).length = width * height ∧
        ∀ i, i < m * width →
          ((List.range m).foldl (fun bb y =>
            (List.range width).foldl (fun bb2 x => atk_step width height bb2 x y) bb)
            b).getD i 0 = 0 ∨
          ((List.range m).foldl (fun bb y =>
            (List.range width).foldl (fun bb2 x => atk_step width height bb2 x y) bb)
            b).getD i 0 = 255) := by
  intro m
  induction m with
  | zero =>
    intro hm b hb
    exact ⟨hb, fun i hi => absurd hi (by omega)⟩
  | succ n ih =>
    intro hm b hb
    rw [List.range_succ, List.foldl_append, List.foldl_cons, List.foldl_nil]
    obtain ⟨ihlen, ihbin⟩ := ih (by omega) b hb
    have hinner := atk_inner_binary width height n (by omega) width le_rfl _ ihlen
      (fun i hi => ihbin i hi)
    refine ⟨hinner.1, ?_⟩
    intro i hi
    apply hinner.2
    have hr : (n + 1) * width = n * width + width := by ring
    omega

/-- C8: Atkinson dithering (raster order, nearest-of-0/255 quantisation,
1/8 error share to the six in-bounds neighbours, clamped) leaves every
pixel of the output either 0 or 255, and preserves the buffer length. -/
theorem C8_atkinson_binary (buf : List Nat) (width height : Nat)
    (hlen : buf.length = width * height) :
    (atkinson_dither buf width height).length = buf.length ∧
    ∀ v ∈ atkinson_dither buf width height, v = 0 ∨ v = 255 := by
  obtain ⟨hl, hbin⟩ := atk_outer_binary width height height le_rfl buf hlen
  constructor
  · unfold atkinson_dither
    rw [hl, hlen]
  · intro v hv
    unfold atkinson_dither at hv
    obtain ⟨i, hi⟩ := List.mem_iff_getElem?.mp hv
    have hilen : i < ((List.range height).foldl (fun b y =>
        (List.range width).foldl (fun b x => atk_step width height b x y) b)
        buf).length := by
      by_contra hno
      rw [List.getElem?_eq_none (by omega)] at hi
      exact nomatch hi
    have hgd : ((List.range height).foldl (fun b y =>
        (List.range width).foldl (fun b x => atk_step width height b x y) b)
        buf).getD i 0 = v := by
      rw [List.getD_eq_getElem?_getD, hi]
      rfl
    rw [← hgd]
    apply hbin
    rw [hl] at hilen
    have hc : width * height = height * width := Nat.mul_comm _ _
    omega

/-- A witness for the Atkinson binary-output property on a 2x2 mid-gray
image. -/
theorem C8_atkinson_binary_witness :
    ([127, 127, 127, 127] : List Nat).length = 2 * 2 ∧
    ((atkinson_dither [127, 127, 127, 127] 2 2).length =
        ([127, 127, 127, 127] : List Nat).length ∧
      ∀ v ∈ atkinson_dither [127, 127, 127, 127] 2 2, v = 0 ∨ v = 255) :=
  ⟨by decide, C8_atkinson_binary [127, 127, 127, 127] 2 2 (by decide)⟩

/-- `protocol.rs::chunk_data` for nonzero chunk size: Rust's
`data.chunks(n)` — successive chunks of `n` bytes, last possibly shorter,
none for an empty input. -/
def chunksOf (n : Nat) (l : List Nat) : List (List Nat) :=
  if h : n = 0 ∨ l = [] then []
  else l.take n :: chunksOf n (l.drop n)
termination_by l.length
decreasing_by
  push_neg at h
  have hlp : 0 < l.length := List.length_pos.mpr h.2
  simp only [List.length_drop]
  omega

/-- `protocol.rs::chunk_data`: chunk size 0 returns the whole input as a
single chunk. -/
def chunk_data (data : List Nat) (chunk_size : Nat) : List (List Nat) :=
  if chunk_size = 0 then [data] else chunksOf chunk_size data

/-- The transport I/O performed during a modelled print session: control
packets written, data chunks written, and notifications read. -/
structure Trace where
  controls : List (List Nat)
  datas : List (List Nat)
  reads_used : Nat
deriving DecidableEq, Repr

/-- The completion-wait loop of `printer.rs::print_image`: keep reading
until a notification with command id 0xAA arrives; the 60-second deadline
and transport failures are modelled by the response script running out. -/
def wait_complete : List (List Nat) → Nat → Except String Unit × Nat
  | [], used => (.error "timed out waiting for print complete", used)
  | r :: rest, used =>
    match parse_notification r with
    | .error e => (.error e, used + 1)
    | .ok n =>
      if n.command_id = 0xAA then (.ok (), used + 1)
      else wait_complete rest (used + 1)

/-- `printer.rs::CatPrinter::print_image` against a scripted transport:
`responses` is the sequence of notifications the transport returns, the
result is paired with the trace of transport I/O actually performed. The
0xA9 announce payload is the u16 line count little-endian, 0x30, and the
mode byte. -/
def print_image_model (pixels : List Nat) (width height mode chunk_size : Nat)
    (responses : List (List Nat)) : Except String Unit × Trace :=
  match pack_1bpp_pixels pixels width height with
  | .error e => (.error e, ⟨[], [], 0⟩)
  | .ok packed =>
    let a9 := build_control_packet 0xA9
      [(height % 65536) % 256, (height % 65536) / 256, 0x30, mode]
    match responses with
    | [] => (.error "transport read error", ⟨[a9], [], 0⟩)
    | resp :: rest =>
      match parse_notification resp with
      | .error e => (.error e, ⟨[a9], [], 1⟩)
      | .ok parsed =>
        if parsed.command_id ≠ 0xA9 ∨ parsed.payload.head? = some 0x01 then
          (.error "printer rejected print request", ⟨[a9], [], 1⟩)
        else
          let chunks := chunk_data packed chunk_size
          let ad := build_control_packet 0xAD [0x00]
          match wait_complete rest 1 with
          | (res, used) => (res, ⟨[a9, ad], chunks, used⟩)

/-- C9: when the notification after the 0xA9 size announce fails to parse,
or parses with a command id other than 0xA9, or has first payload byte
0x01, the session ends in an error having written only the 0xA9 packet:
no data chunk, no 0xAD end-of-data packet, and exactly one notification
read. -/
theorem C9_reject_no_io (pixels : List Nat) (width height mode chunk_size : Nat)
    (responses : List (List Nat)) (packed : List Nat)
    (hpack : pack_1bpp_pixels pixels width height = .ok packed)
    (resp : List Nat) (rest : List (List Nat)) (hresp : responses = resp :: rest)
    (hrej : (∃ e, parse_notification resp = .error e) ∨
      (∃ n, parse_notification resp = .ok n ∧
        (n.command_id ≠ 0xA9 ∨ n.payload.head? = some 0x01))) :
    (∃ e, (print_image_model pixels width height mode chunk_size responses).1 =
        .error e) ∧
    (print_image_model pixels width height mode chunk_size responses).2 =
      ⟨[build_control_packet 0xA9
          [(height % 65536) % 256, (height % 65536) / 256, 0x30, mode]], [], 1⟩ := by
  subst hresp
  rcases hrej with ⟨e, he⟩ | ⟨n, hn, hcond⟩
  · refine ⟨⟨e, ?_⟩, ?_⟩
    · simp only [print_image_model, hpack, he]
    · simp only [print_image_model, hpack, he]
  · simp only [print_image_model, hpack, hn]
    rw [if_pos hcond]
    exact ⟨⟨_, rfl⟩, rfl⟩

/-- A witness for the rejection path: a 1x1 image whose 0xA9 reply carries
first payload byte 0x01. -/
theorem C9_reject_no_io_witness :
    (∃ e, (print_image_model [0] 1 1 0 180
        [[0x22, 0x21, 0xA9, 0x00, 0x01, 0x00, 0x01, 0x00]]).1 = .error e) ∧
    (print_image_model [0] 1 1 0 180
        [[0x22, 0x21, 0xA9, 0x00, 0x01, 0x00, 0x01, 0x00]]).2 =
      ⟨[build_control_packet 0xA9 [(1 % 65536) % 256, (1 % 65536) / 256, 0x30, 0]],
        [], 1⟩ :=
  C9_reject_no_io [0] 1 1 0 180 [[0x22, 0x21, 0xA9, 0x00, 0x01, 0x00, 0x01, 0x00]]
    [1] (by rfl) [0x22, 0x21, 0xA9, 0x00, 0x01, 0x00, 0x01, 0x00] [] rfl
    (Or.inr ⟨{ command_id := 0xA9, unknown := 0x00, payload := [0x01], crc := some 0x00 },
      by rfl, Or.inr (by rfl)⟩)
